import Mathlib

/-!
Shallow embedding of the NDS cartridge parsing / backward-decompression code
(`ndsrom.py`, `ndstest.py`, `gameroms/binaryview/ndsrom.py`).

Bytes are modelled as `Nat` (values < 256 in well-formed buffers), byte
buffers as `List Nat`, and Python-level failures (raised exceptions) as
`none` in `Option`-valued functions.  Python container semantics that the
source relies on are modelled explicitly:
  * slices `l[a:b]` with non-negative bounds clamp to the buffer,
  * `bytearray` indexing accepts negative indices counted from the end and
    raises `IndexError` outside `[-len, len)`,
  * `struct.unpack_from("<I", l, off)` accepts a negative `off`, resolving
    it to `len l + off`, and raises unless the resolved offset and four
    following bytes lie inside the buffer.
-/

/-- Little-endian value of a byte list (Python `int.from_bytes(l, "little")`;
the empty list gives 0, matching CPython). -/
def leNat (l : List Nat) : Nat :=
  l.foldr (fun b acc => b + 256 * acc) 0

/-- Python slice `l[a:b]` for non-negative `a`, `b`: clamps to the buffer,
never fails. -/
def pySliceN (l : List Nat) (a b : Nat) : List Nat :=
  (l.take b).drop a

/-- Resolve a Python sequence index (negative indices count from the end);
`none` models `IndexError`. -/
def pyResolve (n : Nat) (i : Int) : Option Nat :=
  if 0 ≤ i then (if i < (n : Int) then some i.toNat else none)
  else (if 0 ≤ (n : Int) + i then some ((n : Int) + i).toNat else none)

/-- Python `l[i]` on a `bytearray`/`bytes` value. -/
def pyGetI (l : List Nat) (i : Int) : Option Nat :=
  (pyResolve l.length i).map (fun j => l.getD j 0)

/-- Python `l[i] = v` on a `bytearray`. -/
def pySetI (l : List Nat) (i : Int) (v : Nat) : Option (List Nat) :=
  (pyResolve l.length i).map (fun j => l.set j v)

/-- Python `struct.unpack_from("<I", l, off)[0]`: a negative `off` resolves
to `len l + off`; fails (raises `struct.error`) unless the resolved offset
is in range with four bytes available. -/
def unpackFrom (l : List Nat) (off : Int) : Option Nat :=
  let r : Int := if off < 0 then (l.length : Int) + off else off
  if 0 ≤ r ∧ r + 4 ≤ (l.length : Int) then
    some (leNat (pySliceN l r.toNat (r.toNat + 4)))
  else none

/-! ## Checksum module (`crc16` in `src/ndsrom.py`) -/

/-- One inner iteration of `crc16`: shift right, xor `0xA001` when the bit
shifted out was set. -/
def crcRound (crc : Nat) : Nat :=
  if crc &&& 1 = 1 then (crc >>> 1) ^^^ 0xA001 else crc >>> 1

/-- Per-byte step of `crc16`: xor the byte in, then eight rounds. -/
def crcByte (crc ch : Nat) : Nat :=
  crcRound^[8] (crc ^^^ ch)

/-- `crc16` from `src/ndsrom.py`: accumulator starts at `0xFFFF`. -/
def crc16 (data : List Nat) : Nat :=
  data.foldl crcByte 0xFFFF

/-! ## Format probe (`NDSView.is_valid_for_data` in `src/ndsrom.py`) -/

/-- `NDSView.is_valid_for_data`: reads the first `0x160` bytes, rejects a
short buffer, then checks the header checksum (stored at `0x15E`, computed
over `[0, 0x15E)`) and the logo checksum (stored at `0x15C`, computed over
`[0xC0, 0x15C)`). -/
def is_valid_for_data (d : List Nat) : Bool :=
  let hdr := d.take 0x160
  if hdr.length < 0x160 then false
  else if leNat (pySliceN hdr 0x15E 0x160) != crc16 (pySliceN hdr 0 0x15E) then false
  else if leNat (pySliceN hdr 0x15C 0x15E) != crc16 (pySliceN hdr 0xC0 0x15C) then false
  else true

/-! ## FAT decoder (`parse_fat` in `src/ndstest.py`) -/

structure FATEntry where
  start_address : Nat
  end_address : Nat
  deriving DecidableEq, Repr

/-- The 8-byte FAT slot starting at `off + i` (both words decoded by
`int.from_bytes` over clamping slices, as in the source). -/
def fatSlot (rom : List Nat) (off i : Nat) : FATEntry :=
  { start_address := leNat (pySliceN rom (off + i) (off + i + 4)),
    end_address := leNat (pySliceN rom (off + i + 4) (off + i + 8)) }

/-- `parse_fat`: iterates `range(0, fat_size, 8)` and appends a `FATEntry`
only when `start_address != 0 or end_address != 0`. -/
def parse_fat (rom : List Nat) (fat_offset fat_size : Nat) : List FATEntry :=
  ((List.range ((fat_size + 7) / 8)).map (fun k => fatSlot rom fat_offset (8 * k))).filter
    (fun e => e.start_address != 0 || e.end_address != 0)

/-! ## Overlay table decoder (`read_overlay_table` in `src/ndstest.py`) -/

structure NDSOverlayEntry where
  overlay_id : Nat
  ram_address : Nat
  ram_size : Nat
  bss_size : Nat
  static_initializer_start_address : Nat
  static_initializer_end_address : Nat
  file_id : Nat
  reserved : Nat
  deriving DecidableEq, Repr

/-- The eight little-endian 32-bit fields of the 32-byte record at `i`
(total function; used to state what the decoder returns on in-range
records). -/
def overlaySlot (ov : List Nat) (i : Nat) : NDSOverlayEntry :=
  { overlay_id := leNat (pySliceN ov i (i + 4)),
    ram_address := leNat (pySliceN ov (i + 4) (i + 8)),
    ram_size := leNat (pySliceN ov (i + 8) (i + 12)),
    bss_size := leNat (pySliceN ov (i + 12) (i + 16)),
    static_initializer_start_address := leNat (pySliceN ov (i + 16) (i + 20)),
    static_initializer_end_address := leNat (pySliceN ov (i + 20) (i + 24)),
    file_id := leNat (pySliceN ov (i + 24) (i + 28)),
    reserved := leNat (pySliceN ov (i + 28) (i + 32)) }

/-- One loop body of `read_overlay_table`: the eight `struct.unpack_from`
calls at offsets `i .. i+28`, each of which can raise. -/
def overlaySlotOpt (ov : List Nat) (i : Nat) : Option NDSOverlayEntry :=
  (unpackFrom ov (i : Int)).bind (fun f0 =>
  (unpackFrom ov ((i + 4 : Nat) : Int)).bind (fun f1 =>
  (unpackFrom ov ((i + 8 : Nat) : Int)).bind (fun f2 =>
  (unpackFrom ov ((i + 12 : Nat) : Int)).bind (fun f3 =>
  (unpackFrom ov ((i + 16 : Nat) : Int)).bind (fun f4 =>
  (unpackFrom ov ((i + 20 : Nat) : Int)).bind (fun f5 =>
  (unpackFrom ov ((i + 24 : Nat) : Int)).bind (fun f6 =>
  (unpackFrom ov ((i + 28 : Nat) : Int)).bind (fun f7 =>
    some { overlay_id := f0, ram_address := f1, ram_size := f2, bss_size := f3,
           static_initializer_start_address := f4, static_initializer_end_address := f5,
           file_id := f6, reserved := f7 }))))))))

/-- The `for i in range(0, len(overlay_data), 32)` loop, one call per
iteration (`k` iterations remain, current offset `i`). -/
def read_overlay_table_go (ov : List Nat) : Nat → Nat → Option (List NDSOverlayEntry)
  | 0, _ => some []
  | k + 1, i =>
    (overlaySlotOpt ov i).bind (fun e =>
      (read_overlay_table_go ov k (i + 32)).map (fun rest => e :: rest))

/-- `read_overlay_table`: `f.seek(offset); f.read(size)` yields the clamped
slice `rom[offset : offset + size]`, then the 32-byte-record loop runs over
it. -/
def read_overlay_table (rom : List Nat) (offset size : Nat) :
    Option (List NDSOverlayEntry) :=
  let ov := pySliceN rom offset (offset + size)
  read_overlay_table_go ov ((ov.length + 31) / 32) 0

/-! ## FNT decoder (`parse_fnt`, `parse_fnt_sub_table` in `src/ndstest.py`) -/

structure FNTDirectoryEntry where
  sub_table_offset : Nat
  first_file_id : Nat
  parent_directory_id : Option Nat
  deriving DecidableEq, Repr

structure FNTFileEntry where
  name : String
  is_directory : Bool
  directory_id : Option Nat
  deriving DecidableEq, Repr

/-- Python `bytes.decode("ascii")`: fails when any byte is ≥ 128. -/
def decodeAscii (l : List Nat) : Option String :=
  if l.all (fun b => b < 128) then some (String.mk (l.map Char.ofNat)) else none

/-- `parse_fnt`: reads `total_directories` from the two bytes at
`fnt_offset + 6`, then one 8-byte main-table record per directory; directory
ids are `0xF000 + i`, the root (index 0) gets no parent id.  (`fnt_size` is
accepted and unused, as in the source.) -/
def parse_fnt (rom : List Nat) (fnt_offset fnt_size : Nat) :
    List (Nat × FNTDirectoryEntry) :=
  let _ := fnt_size
  let total := leNat (pySliceN rom (fnt_offset + 6) (fnt_offset + 8))
  (List.range total).map (fun i =>
    let off := fnt_offset + i * 8
    (0xF000 + i,
      { sub_table_offset := leNat (pySliceN rom off (off + 4)),
        first_file_id := leNat (pySliceN rom (off + 4) (off + 6)),
        parent_directory_id :=
          if i = 0 then none else some (leNat (pySliceN rom (off + 6) (off + 8))) }))

/-- The `while True` loop of `parse_fnt_sub_table`: reads a type/length tag
(`rom[offset]`, raising past the end), stops on tag 0, otherwise decodes a
name of `tag &&& 0x7F` bytes and, when bit 7 of the tag is set, a 2-byte
little-endian child directory id.  `fuel` bounds the loop (the offset grows
by at least one per iteration, so `rom.length + 1` steps always suffice). -/
def parse_fnt_sub_go (rom : List Nat) : Nat → Nat → Option (List FNTFileEntry)
  | 0, _ => none
  | fuel + 1, offset =>
    (rom.get? offset).bind (fun tl =>
      if tl = 0 then some []
      else
        let nameLen := tl &&& 0x7F
        (decodeAscii (pySliceN rom (offset + 1) (offset + 1 + nameLen))).bind (fun nm =>
          if tl &&& 0x80 ≠ 0 then
            let did := leNat (pySliceN rom (offset + 1 + nameLen) (offset + 1 + nameLen + 2))
            (parse_fnt_sub_go rom fuel (offset + 1 + nameLen + 2)).map
              (fun rest => ⟨nm, true, some did⟩ :: rest)
          else
            (parse_fnt_sub_go rom fuel (offset + 1 + nameLen)).map
              (fun rest => ⟨nm, false, none⟩ :: rest)))

/-- `parse_fnt_sub_table rom fnt_offset sub_table_offset`. -/
def parse_fnt_sub_table (rom : List Nat) (fnt_offset sub_table_offset : Nat) :
    Option (List FNTFileEntry) :=
  parse_fnt_sub_go rom (rom.length + 1) (fnt_offset + sub_table_offset)

/-- Worklist form of the depth-first traversal done by `print_file_system`:
pops one entry per step, emits its name, and for a directory entry expands
its sub-table in front of the remaining entries (preorder). -/
def fnt_walk_go (dirs : List (Nat × FNTDirectoryEntry)) (rom : List Nat)
    (fnt_offset : Nat) : Nat → List FNTFileEntry → Option (List String)
  | _, [] => some []
  | 0, _ :: _ => none
  | fuel + 1, e :: rest =>
    if e.is_directory then
      e.directory_id.bind (fun did =>
        (List.lookup did dirs).bind (fun de =>
          (parse_fnt_sub_table rom fnt_offset de.sub_table_offset).bind (fun sub =>
            (fnt_walk_go dirs rom fnt_offset fuel (sub ++ rest)).map
              (fun names => e.name :: names))))
    else
      (fnt_walk_go dirs rom fnt_offset fuel rest).map (fun names => e.name :: names)

/-- Depth-first name traversal from a directory id (the visiting order of
`print_file_system`, collecting entry names). -/
def fnt_walk (dirs : List (Nat × FNTDirectoryEntry)) (rom : List Nat)
    (fnt_offset fuel dir_id : Nat) : Option (List String) :=
  (List.lookup dir_id dirs).bind (fun de =>
    (parse_fnt_sub_table rom fnt_offset de.sub_table_offset).bind (fun sub =>
      fnt_walk_go dirs rom fnt_offset fuel sub))

/-! ## Backward decompressor (`_mii_uncompress_backward` in
`src/gameroms/binaryview/ndsrom.py`)

The Python loop mutates a `bytearray` `result` and two integer cursors
`offs` (source) and `dst_offs` (destination).  The two `struct.unpack_from`
reads inside the loop are over the immutable input `data`, so they equal
the values read before the loop and are hoisted.  All indexing follows
Python `bytearray` semantics (`pyGetI`/`pySetI`), including negative-index
wrapping.  The outer `while True` is given fuel; `offs` falls by at least
one per processed bit, so the chosen fuel is never exhausted before the
source's own return or an indexing error. -/

/-- The `for _ in range(length + 1)` copy loop of a back-reference:
`dst_offs -= 1; result[dst_offs] = result[dst_offs + disp]`, reading the
partially rewritten buffer (read-after-write within the run). -/
def backrefCopy : List Nat → Int → Nat → Nat → Option (List Nat × Int)
  | result, dst, _, 0 => some (result, dst)
  | result, dst, disp, k + 1 =>
    (pyGetI result (dst - 1 + (disp : Int))).bind (fun v =>
      (pySetI result (dst - 1) v).bind (fun r =>
        backrefCopy r (dst - 1) disp k))

/-- One control bit of the decompressor: bit clear copies a single literal
byte backward; bit set reads the two token bytes `a`, `b`, forms
`disp = (((a &&& 0xF) <<< 8) ||| b) + 2` and `length = (a >>> 4) + 2`, and
copies `length + 1` bytes.  Returns the new buffer and cursors. -/
def bitStep (result : List Nat) (offs dst : Int) (header : Nat) :
    Option (List Nat × Int × Int) :=
  if header &&& 0x80 = 0 then
    (pyGetI result (offs - 1)).bind (fun v =>
      (pySetI result (dst - 1) v).map (fun r => (r, offs - 1, dst - 1)))
  else
    (pyGetI result (offs - 1)).bind (fun a =>
      (pyGetI result (offs - 2)).bind (fun b =>
        (backrefCopy result dst ((((a &&& 0xF) <<< 8) ||| b) + 2) (((a >>> 4) + 2) + 1)).map
          (fun p => (p.1, offs - 2, p.2))))

/-- Result of processing the bits of one control byte: either the loop
returned (`done`) or all eight bits were consumed (`more`). -/
inductive MiiOut where
  | done (r : List Nat)
  | more (r : List Nat) (offs dst : Int)
  deriving DecidableEq, Repr

/-- The buffer carried by a `MiiOut`. -/
def MiiOut.buf : MiiOut → List Nat
  | .done r => r
  | .more r _ _ => r

/-- The `for i in range(8)` loop: processes bits most-significant first,
checks `offs <= stop` after every bit and returns immediately when it
holds, otherwise shifts the control byte left and continues. -/
def innerBits (stop : Int) : Nat → Nat → List Nat → Int → Int → Option MiiOut
  | 0, _, result, offs, dst => some (.more result offs dst)
  | i + 1, header, result, offs, dst =>
    (bitStep result offs dst header).bind (fun s =>
      if s.2.1 ≤ stop then some (.done s.1)
      else innerBits stop i ((header <<< 1) &&& 0xFF) s.1 s.2.1 s.2.2)

/-- The `while True` loop: reads a control byte at `offs - 1`, decrements
`offs`, and processes its eight bits. -/
def mainLoop (stop : Int) : Nat → List Nat → Int → Int → Option (List Nat)
  | 0, _, _, _ => none
  | fuel + 1, result, offs, dst =>
    (pyGetI result (offs - 1)).bind (fun header =>
      (innerBits stop 8 header result (offs - 1) dst).bind (fun out =>
        match out with
        | .done r => some r
        | .more r o d => mainLoop stop fuel r o d))

/-- `_mii_uncompress_backward data`: reads `extra_size` at `len - 4` and the
packed word at `len - 8` (with Python's negative-offset resolution when
`len < 8`), allocates `leng = extra_size + len` zero-filled bytes with the
input copied into the front, and runs the loop with
`offs = len - (packed >>> 24)`, `dst_offs = leng`, and stop boundary
`len - (packed &&& 0xFFFFFF)`. -/
def mii_uncompress_backward (data : List Nat) : Option (List Nat) :=
  (unpackFrom data ((data.length : Int) - 4)).bind (fun extra =>
    (unpackFrom data ((data.length : Int) - 8)).bind (fun packed =>
      mainLoop ((data.length : Int) - ((packed &&& 0xFFFFFF : Nat) : Int))
        (data.length + (extra + data.length) + 16)
        (data ++ List.replicate extra 0)
        ((data.length : Int) - ((packed >>> 24 : Nat) : Int))
        ((extra + data.length : Nat) : Int)))

/-! ## Compression detection (`_decompress_arm9` in
`src/gameroms/binaryview/ndsrom.py`) -/

/-- `struct.pack_into("<I", buf, off, 0)` where `buf` is the immutable
`bytes` object returned by `_mii_uncompress_backward`: CPython raises
`TypeError` (`argument must be read-write bytes-like object`), so the call
always fails, whatever the buffer and offset. -/
def pack_into_immutable_u32 (buf : List Nat) (off : Int) : Option (List Nat) :=
  let _ := buf
  let _ := off
  none

/-- `_decompress_arm9`: reads the 4-byte field at
`module_params_offset + 0x14` with `module_params_offset = len - 36`;
zero means not compressed (input returned unchanged); otherwise the whole
blob is decompressed and the code attempts to patch that field — at the
offset computed from the *input* length — inside the immutable result,
which raises. -/
def decompress_arm9 (arm9_data : List Nat) : Option (List Nat) :=
  let module_params_offset : Int := (arm9_data.length : Int) - 36
  (unpackFrom arm9_data (module_params_offset + 0x14)).bind (fun field =>
    if field = 0 then some arm9_data
    else
      (mii_uncompress_backward arm9_data).bind (fun decompressed =>
        pack_into_immutable_u32 decompressed (module_params_offset + 0x14)))

/-! ## Concrete inputs used by the claims -/

/-- A 13-byte compressed blob: payload bytes `b=0, a=0` (one back-reference
token with `disp = 2`, `run_length = 2`), literal bytes `0x11, 0x22`,
control byte `0x20` (literal, literal, back-reference), then the 8-byte
footer `packed = 0x0800000D` (`back_shift = 8`, `end_threshold = 13`) and
`extra_size = 5`. -/
def c1data : List Nat :=
  [0x00, 0x00, 0x11, 0x22, 0x20, 0x0D, 0x00, 0x00, 0x08, 0x05, 0x00, 0x00, 0x00]

/-- A 10-byte all-literal blob with `extra_size = 0`: one control byte
`0x00` at index 1, one literal payload byte at index 0, footer
`packed = 0x0800000A` (`back_shift = 8`, `end_threshold = 10`).  The single
literal copies index 0 onto index 9. -/
def lit10 : List Nat := [0x00, 0x00, 0x0A, 0x00, 0x00, 0x08, 0x00, 0x00, 0x00, 0x00]

/-- `lit10` with its literal payload byte changed to 1; the literal step
overwrites index 9 with 1. -/
def lit10a : List Nat := [0x01, 0x00, 0x0A, 0x00, 0x00, 0x08, 0x00, 0x00, 0x00, 0x00]

/-- `lit10` with its literal payload byte changed to 2. -/
def lit10b : List Nat := [0x02, 0x00, 0x0A, 0x00, 0x00, 0x08, 0x00, 0x00, 0x00, 0x00]

/-- A 40-byte blob: 24 zero bytes, the nonzero module-parameters field
(bytes 24..27 decode to 1) at `len - 36 + 0x14 = 24`, then the same
compressed stream and footer as `c1data` (shifted), so the backward
decompressor succeeds on it. -/
def blob40 : List Nat :=
  List.replicate 24 0 ++ [1, 0, 0] ++ [0x00, 0x00, 0x11, 0x22, 0x20] ++
    [0x0D, 0x00, 0x00, 0x08] ++ [0x05, 0x00, 0x00, 0x00]

/-- A 16-byte FAT region: slot 0 is all-zero, slot 1 is `(1, 2)`. -/
def fat16 : List Nat := [0, 0, 0, 0, 0, 0, 0, 0, 1, 0, 0, 0, 2, 0, 0, 0]

/-- The synthetic FNT of the spec's traversal test: a root directory with a
file `A.BIN` and a sub-directory `SUB` (id `0xF001`) holding a file
`B.BIN`.  Main table: root `(sub_table_offset 16, first_file_id 0,
total 2)`, entry 1 `(29, 1, parent 0xF000)`. -/
def fntRom : List Nat :=
  [16, 0, 0, 0, 0, 0, 2, 0,
   29, 0, 0, 0, 1, 0, 0x00, 0xF0,
   0x05, 0x41, 0x2E, 0x42, 0x49, 0x4E,
   0x83, 0x53, 0x55, 0x42, 0x01, 0xF0,
   0x00,
   0x05, 0x42, 0x2E, 0x42, 0x49, 0x4E,
   0x00]

/-- A 5-byte sub-table: one directory entry (tag `0x81`, name `A`, child id
`0xF007`) and the terminator. -/
def fntSmall : List Nat := [0x81, 0x41, 0x07, 0xF0, 0x00]

/-! ## Helper lemmas -/

theorem unpackFrom_natCast (l : List Nat) (off : Nat) :
    unpackFrom l (off : Int) = if off + 4 ≤ l.length then
      some (leNat (pySliceN l off (off + 4))) else none := by
  simp only [unpackFrom]
  have hnn : ¬ ((off : Int) < 0) := by exact_mod_cast Int.not_lt.mpr (Int.ofNat_nonneg off)
  rw [if_neg hnn]
  by_cases h : off + 4 ≤ l.length
  · rw [if_pos, if_pos h]
    · simp
    · constructor
      · exact Int.ofNat_nonneg off
      · exact_mod_cast h
  · rw [if_neg, if_neg h]
    intro hc
    exact h (by exact_mod_cast hc.2)

theorem pySetI_length {l : List Nat} {i : Int} {v : Nat} {l' : List Nat}
    (h : pySetI l i v = some l') : l'.length = l.length := by
  unfold pySetI at h
  cases hr : pyResolve l.length i with
  | none => rw [hr] at h; simp at h
  | some j =>
    rw [hr] at h
    simp only [Option.map, Option.some.injEq] at h
    cases h
    exact List.length_set l j v

theorem backrefCopy_length {disp : Nat} : ∀ (k : Nat) (result : List Nat) (dst : Int)
    (r : List Nat) (d : Int), backrefCopy result dst disp k = some (r, d) →
    r.length = result.length := by
  intro k
  induction k with
  | zero =>
    intro result dst r d h
    simp only [backrefCopy, Option.some.injEq, Prod.mk.injEq] at h
    rw [← h.1]
  | succ n ih =>
    intro result dst r d h
    simp only [backrefCopy] at h
    cases hg : pyGetI result (dst - 1 + (disp : Int)) with
    | none => rw [hg] at h; simp at h
    | some v =>
      rw [hg] at h
      simp only [Option.some_bind] at h
      cases hs : pySetI result (dst - 1) v with
      | none => rw [hs] at h; simp at h
      | some r1 =>
        rw [hs] at h
        simp only [Option.some_bind] at h
        calc r.length = r1.length := ih r1 (dst - 1) r d h
          _ = result.length := pySetI_length hs

theorem bitStep_length {result : List Nat} {offs dst : Int} {header : Nat}
    {r : List Nat} {o d : Int} (h : bitStep result offs dst header = some (r, o, d)) :
    r.length = result.length := by
  unfold bitStep at h
  by_cases hd : header &&& 0x80 = 0
  · rw [if_pos hd] at h
    cases hg : pyGetI result (offs - 1) with
    | none => rw [hg] at h; simp at h
    | some v =>
      rw [hg] at h
      simp only [Option.some_bind] at h
      cases hs : pySetI result (dst - 1) v with
      | none => rw [hs] at h; simp at h
      | some r1 =>
        rw [hs] at h
        simp only [Option.map, Option.some.injEq, Prod.mk.injEq] at h
        rw [← h.1]
        exact pySetI_length hs
  · rw [if_neg hd] at h
    cases hg : pyGetI result (offs - 1) with
    | none => rw [hg] at h; simp at h
    | some a =>
      rw [hg] at h
      simp only [Option.some_bind] at h
      cases hg2 : pyGetI result (offs - 2) with
      | none => rw [hg2] at h; simp at h
      | some b =>
        rw [hg2] at h
        simp only [Option.some_bind] at h
        cases hbc : backrefCopy result dst ((((a &&& 0xF) <<< 8) ||| b) + 2)
            (((a >>> 4) + 2) + 1) with
        | none => rw [hbc] at h; simp at h
        | some p =>
          obtain ⟨p1, p2⟩ := p
          rw [hbc] at h
          simp only [Option.map, Option.some.injEq, Prod.mk.injEq] at h
          rw [← h.1]
          exact backrefCopy_length _ result dst p1 p2 hbc

theorem innerBits_buf_length {stop : Int} : ∀ (i header : Nat) (result : List Nat)
    (offs dst : Int) (out : MiiOut), innerBits stop i header result offs dst = some out →
    out.buf.length = result.length := by
  intro i
  induction i with
  | zero =>
    intro header result offs dst out h
    simp only [innerBits, Option.some.injEq] at h
    rw [← h]
    rfl
  | succ n ih =>
    intro header result offs dst out h
    simp only [innerBits] at h
    cases hb : bitStep result offs dst header with
    | none => rw [hb] at h; simp at h
    | some s =>
      obtain ⟨r, o, d⟩ := s
      rw [hb] at h
      simp only [Option.some_bind] at h
      by_cases hstop : o ≤ stop
      · rw [if_pos hstop] at h
        simp only [Option.some.injEq] at h
        rw [← h]
        exact bitStep_length hb
      · rw [if_neg hstop] at h
        calc out.buf.length = r.length := ih _ r o d out h
          _ = result.length := bitStep_length hb

theorem mainLoop_length {stop : Int} : ∀ (fuel : Nat) (result : List Nat) (offs dst : Int)
    (out : List Nat), mainLoop stop fuel result offs dst = some out →
    out.length = result.length := by
  intro fuel
  induction fuel with
  | zero => intro result offs dst out h; simp [mainLoop] at h
  | succ n ih =>
    intro result offs dst out h
    simp only [mainLoop] at h
    cases hh : pyGetI result (offs - 1) with
    | none => rw [hh] at h; simp at h
    | some header =>
      rw [hh] at h
      simp only [Option.some_bind] at h
      cases hi : innerBits stop 8 header result (offs - 1) dst with
      | none => rw [hi] at h; simp at h
      | some m =>
        rw [hi] at h
        simp only [Option.some_bind] at h
        cases m with
        | done r =>
          simp only [Option.some.injEq] at h
          rw [← h]
          exact innerBits_buf_length 8 header result (offs - 1) dst (.done r) hi
        | more r o d =>
          calc out.length = r.length := ih r o d out h
            _ = result.length := innerBits_buf_length 8 header result (offs - 1) dst (.more r o d) hi

/-! ## Claims -/

/-- C1: on a set control bit the decompressor reads `a` at `src_cursor - 1`
and `b` at `src_cursor - 2`, decrements `src_cursor` by 2, computes
`disp = (((a &&& 0xF) <<< 8) ||| b) + 2` and `run length = (a >>> 4) + 2`,
and emits `run length + 1` bytes, each by decrementing `dst_cursor` and
copying `output[dst_cursor + disp]` to `output[dst_cursor]` with
read-after-write inside the run; on `c1data` the token with `disp = 2` over
the 2-byte tail `[0x11, 0x22]` produces the period-2 repetition
`[0x22, 0x11, 0x22, 0x11, 0x22]` of that tail. -/
theorem C1_backreference_step :
    (∀ (result : List Nat) (offs dst : Int) (header a b : Nat),
       header &&& 0x80 ≠ 0 →
       pyGetI result (offs - 1) = some a →
       pyGetI result (offs - 2) = some b →
       bitStep result offs dst header =
         (backrefCopy result dst ((((a &&& 0xF) <<< 8) ||| b) + 2) (((a >>> 4) + 2) + 1)).map
           (fun p => (p.1, offs - 2, p.2)))
    ∧ (∀ (result : List Nat) (dst : Int) (disp k : Nat),
       backrefCopy result dst disp (k + 1) =
         (pyGetI result (dst - 1 + (disp : Int))).bind (fun v =>
           (pySetI result (dst - 1) v).bind (fun r =>
             backrefCopy r (dst - 1) disp k)))
    ∧ mii_uncompress_backward c1data = some (c1data ++ [0x22, 0x11, 0x22, 0x11, 0x22])
    ∧ (∀ i < 3, (c1data ++ [0x22, 0x11, 0x22, 0x11, 0x22]).getD (13 + i) 0 =
        (c1data ++ [0x22, 0x11, 0x22, 0x11, 0x22]).getD (15 + i) 0) := by
  refine ⟨?_, ?_, by decide, by decide⟩
  · intro result offs dst header a b hbit ha hb
    unfold bitStep
    rw [if_neg hbit, ha, Option.some_bind, hb, Option.some_bind]
  · intro result dst disp k
    rfl

/-- Witness for C1: the back-reference branch at a concrete state. -/
theorem C1_backreference_step_witness :
    bitStep [0, 0, 9] 2 5 0x80 =
      (backrefCopy [0, 0, 9] 5 ((((0 &&& 0xF) <<< 8) ||| 0) + 2) (((0 >>> 4) + 2) + 1)).map
        (fun p => (p.1, 2 - 2, p.2)) :=
  C1_backreference_step.1 [0, 0, 9] 2 5 0x80 0 0 (by decide) (by decide) (by decide)

/-- C3 counterexample: a 4-byte input — shorter than 8 bytes — on which the
decompressor does not fail at all (no `TruncatedFooter` exists in the
code): Python's negative-offset resolution makes both footer reads alias
the same four bytes and decompression returns successfully. -/
theorem C3_short_input_counterexample :
    ([0, 0, 0, 0] : List Nat).length < 8 ∧
    mii_uncompress_backward [0, 0, 0, 0] = some [0, 0, 0, 0] :=
  ⟨by decide, by decide⟩

/-- C3 (amended): the decompressor performs no footer or bounds validation
of its own.  An input shorter than 8 bytes of any length other than 4 fails
with a generic raised error (modelled `none`); at length exactly 4 the
packed-word read at offset `len - 8` wraps around and aliases the read at
offset 0, so decompression can succeed.  Out-of-range cursors are handled
by Python semantics (negative indices wrap, far out-of-range raises), not
by any `CorruptCompressedStream` check. -/
theorem C3_no_footer_validation :
    (∀ data : List Nat, data.length < 8 → data.length ≠ 4 →
       mii_uncompress_backward data = none)
    ∧ (∀ data : List Nat, data.length = 4 →
       unpackFrom data ((data.length : Int) - 8) = unpackFrom data 0) := by
  constructor
  · intro data h1 h2
    unfold mii_uncompress_backward
    by_cases h4 : data.length < 4
    · have hx : unpackFrom data ((data.length : Int) - 4) = none := by
        simp only [unpackFrom]
        split
        · split
          · omega
          · rfl
        · exfalso; omega
      rw [hx]
      rfl
    · have hx : unpackFrom data ((data.length : Int) - 8) = none := by
        simp only [unpackFrom]
        split
        · split
          · omega
          · rfl
        · exfalso; omega
      cases hfirst : unpackFrom data ((data.length : Int) - 4) with
      | none => rfl
      | some e => rw [Option.some_bind, hx]; rfl
  · intro data h
    simp only [unpackFrom, h]
    norm_num

/-- Witness for C3: a 3-byte input fails, and on a 4-byte input the packed
footer read aliases offset 0. -/
theorem C3_no_footer_validation_witness :
    mii_uncompress_backward [0, 0, 0] = none ∧
    unpackFrom [0, 0, 0, 0] ((([0, 0, 0, 0] : List Nat).length : Int) - 8) =
      unpackFrom [0, 0, 0, 0] 0 :=
  ⟨C3_no_footer_validation.1 [0, 0, 0] (by decide) (by decide),
   C3_no_footer_validation.2 [0, 0, 0, 0] (by decide)⟩

/-- C4 counterexample: `blob40` has a non-zero compression field and the
backward decompressor succeeds on it, yet `_decompress_arm9` returns
nothing at all (the `struct.pack_into` patch into the immutable `bytes`
result raises), instead of returning the decompressed output with the
field zeroed. -/
theorem C4_patch_counterexample :
    unpackFrom blob40 (((blob40.length : Int) - 36) + 0x14) = some 1 ∧
    mii_uncompress_backward blob40 = some (blob40 ++ [0x22, 0x11, 0x22, 0x11, 0x22]) ∧
    decompress_arm9 blob40 = none :=
  ⟨by decide, by decide, by decide⟩

/-- C4 (amended): `_decompress_arm9` reads the 4-byte field at
`len(blob) - 36 + 0x14`; if it is zero the blob is returned unchanged; if
it is non-zero the whole blob is run through the backward decompressor and
the attempt to zero the field — at the offset computed from the *input*
length — in the immutable decompressed `bytes` raises, so no decompressed
output is ever returned. -/
theorem C4_compression_detection :
    (∀ data : List Nat,
       unpackFrom data (((data.length : Int) - 36) + 0x14) = some 0 →
       decompress_arm9 data = some data)
    ∧ (∀ (data : List Nat) (field : Nat),
       unpackFrom data (((data.length : Int) - 36) + 0x14) = some field → field ≠ 0 →
       decompress_arm9 data = none) := by
  constructor
  · intro data h
    simp only [decompress_arm9]
    rw [h, Option.some_bind, if_pos rfl]
  · intro data field h hne
    simp only [decompress_arm9]
    rw [h, Option.some_bind, if_neg hne]
    cases hm : mii_uncompress_backward data with
    | none => rfl
    | some dec => rfl

/-- Witness for C4: the zero-field branch on 36 zero bytes and the
non-zero-field branch on `blob40`. -/
theorem C4_compression_detection_witness :
    decompress_arm9 (List.replicate 36 0) = some (List.replicate 36 0) ∧
    decompress_arm9 blob40 = none :=
  ⟨C4_compression_detection.1 (List.replicate 36 0) (by decide),
   C4_compression_detection.2 blob40 1 (by decide) (by decide)⟩

/-- C5 counterexample: a 16-byte FAT region (`n = 2` slots) whose first
slot is all-zero yields a single entry, not `n` entries — the all-zero
slot is dropped, not retained as an index placeholder. -/
theorem C5_zero_slot_counterexample :
    parse_fat fat16 0 16 = [⟨1, 2⟩] ∧ (parse_fat fat16 0 16).length ≠ 16 / 8 :=
  ⟨by decide, by decide⟩

/-- C5 (amended): for a FAT region of byte length `8 * n`, `parse_fat`
returns the `n` slots in slot order *filtered* to those whose start and
end are not both zero; all-zero slots are skipped (so index no longer
equals file id once a zero slot occurs). -/
theorem C5_fat_decoder :
    (∀ (rom : List Nat) (off n : Nat),
       parse_fat rom off (8 * n) =
         ((List.range n).map (fun k => fatSlot rom off (8 * k))).filter
           (fun e => e.start_address != 0 || e.end_address != 0)
       ∧ ((List.range n).map (fun k => fatSlot rom off (8 * k))).length = n)
    ∧ (∀ (rom : List Nat) (off size : Nat) (e : FATEntry),
       e ∈ parse_fat rom off size → e.start_address ≠ 0 ∨ e.end_address ≠ 0) := by
  constructor
  · intro rom off n
    constructor
    · unfold parse_fat
      have hn : (8 * n + 7) / 8 = n := by
        rw [Nat.mul_add_div (by norm_num)]
        norm_num
      rw [hn]
    · simp
  · intro rom off size e he
    unfold parse_fat at he
    rw [List.mem_filter] at he
    have h2 := he.2
    simp only [Bool.or_eq_true, bne_iff_ne, ne_eq] at h2
    tauto

/-- Witness for C5: the retained entry of `fat16` is not all-zero. -/
theorem C5_fat_decoder_witness :
    (⟨1, 2⟩ : FATEntry).start_address ≠ 0 ∨ (⟨1, 2⟩ : FATEntry).end_address ≠ 0 :=
  C5_fat_decoder.2 fat16 0 16 ⟨1, 2⟩ (by decide)

/-- C8 counterexample: an all-literal blob with `extra_size = 0` on which
decompression is *not* the identity: the literal step copies byte 0 (value
1) over byte 9 (value 0). -/
theorem C8_literal_not_identity :
    mii_uncompress_backward lit10a = some [1, 0, 10, 0, 0, 8, 0, 0, 0, 1] ∧
    ([1, 0, 10, 0, 0, 8, 0, 0, 0, 1] : List Nat) ≠ lit10a :=
  ⟨by decide, by decide⟩

/-- C8 (amended): there exist hand-built all-literal blobs with
`extra_size = 0` on which decompression returns the input unchanged —
`lit10` is one — but this is not forced for every all-literal blob, only
for those whose literal copies happen to rewrite bytes with their own
values. -/
theorem C8_literal_identity_instance :
    mii_uncompress_backward lit10 = some lit10 := by
  decide

/-- C2 counterexample: a blob on which decompression succeeds but the first
`L` bytes of the returned buffer do not equal the input verbatim — the
loop's writes land below `L` and overwrite the copied input. -/
theorem C2_first_bytes_counterexample :
    mii_uncompress_backward lit10b = some [2, 0, 10, 0, 0, 8, 0, 0, 0, 2] ∧
    List.take lit10b.length [2, 0, 10, 0, 0, 8, 0, 0, 0, 2] ≠ lit10b :=
  ⟨by decide, by decide⟩

/-- C2 (amended): with footer words `extra_size` (at `L - 4`) and `packed`
(at `L - 8`), the decompressor *initializes* an `L + extra_size`-byte
buffer whose first `L` bytes are the input verbatim (later writes may
overwrite them), starts the loop at `src_cursor = L - (packed >>> 24)` and
`dst_cursor = L + extra_size` with stop boundary
`L - (packed &&& 0xFFFFFF)`; any returned buffer has exactly
`L + extra_size` bytes; and the loop returns immediately after the first
processed bit at which `src_cursor ≤ stop`, even mid-control-byte. -/
theorem C2_decompressor_structure :
    (∀ (data : List Nat) (extra packed : Nat),
       unpackFrom data ((data.length : Int) - 4) = some extra →
       unpackFrom data ((data.length : Int) - 8) = some packed →
       mii_uncompress_backward data =
         mainLoop ((data.length : Int) - ((packed &&& 0xFFFFFF : Nat) : Int))
           (data.length + (extra + data.length) + 16)
           (data ++ List.replicate extra 0)
           ((data.length : Int) - ((packed >>> 24 : Nat) : Int))
           ((extra + data.length : Nat) : Int)
       ∧ (data ++ List.replicate extra 0).take data.length = data)
    ∧ (∀ (data out : List Nat), mii_uncompress_backward data = some out →
       ∃ extra, unpackFrom data ((data.length : Int) - 4) = some extra ∧
         out.length = data.length + extra)
    ∧ (∀ (stop : Int) (i header : Nat) (result : List Nat) (offs dst : Int)
         (r : List Nat) (o d : Int),
       bitStep result offs dst header = some (r, o, d) → o ≤ stop →
       innerBits stop (i + 1) header result offs dst = some (.done r)) := by
  refine ⟨?_, ?_, ?_⟩
  · intro data extra packed hx hp
    constructor
    · unfold mii_uncompress_backward
      rw [hx, Option.some_bind, hp, Option.some_bind]
    · simp
  · intro data out h
    unfold mii_uncompress_backward at h
    cases hx : unpackFrom data ((data.length : Int) - 4) with
    | none => rw [hx] at h; simp at h
    | some extra =>
      rw [hx] at h
      simp only [Option.some_bind] at h
      cases hp : unpackFrom data ((data.length : Int) - 8) with
      | none => rw [hp] at h; simp at h
      | some packed =>
        rw [hp] at h
        simp only [Option.some_bind] at h
        refine ⟨extra, rfl, ?_⟩
        have hl := mainLoop_length _ _ _ _ _ h
        simp only [List.length_append, List.length_replicate] at hl
        omega
  · intro stop i header result offs dst r o d hb hstop
    unfold innerBits
    rw [hb, Option.some_bind]
    show (if o ≤ stop then some (MiiOut.done r) else
      innerBits stop i ((header <<< 1) &&& 0xFF) r o d) = some (MiiOut.done r)
    rw [if_pos hstop]

/-- Witness for C2: the structure equations at `lit10`
(`extra_size = 0`, `packed = 0x0800000A`). -/
theorem C2_decompressor_structure_witness :
    mii_uncompress_backward lit10 =
      mainLoop ((lit10.length : Int) - ((0x0800000A &&& 0xFFFFFF : Nat) : Int))
        (lit10.length + (0 + lit10.length) + 16)
        (lit10 ++ List.replicate 0 0)
        ((lit10.length : Int) - ((0x0800000A >>> 24 : Nat) : Int))
        ((0 + lit10.length : Nat) : Int)
    ∧ (lit10 ++ List.replicate 0 0).take lit10.length = lit10 :=
  C2_decompressor_structure.1 lit10 0 0x0800000A (by decide) (by decide)

theorem pySliceN_take (d : List Nat) (a b c : Nat) (h : b ≤ c) :
    pySliceN (d.take c) a b = pySliceN d a b := by
  unfold pySliceN
  rw [List.take_take, Nat.min_eq_left h]

/-- C6: the format probe accepts exactly the buffers of length at least
`0x160` whose stored header checksum (little-endian 16-bit word at
`0x15E`) equals `crc16` of bytes `[0, 0x15E)` and whose stored logo
checksum (word at `0x15C`) equals `crc16` of bytes `[0xC0, 0x15C)`;
`crc16` starts from `0xFFFF` (so the empty sequence yields `0xFFFF`) and
per byte xors it in and runs eight shift/xor-`0xA001` rounds keyed on the
bit shifted out. -/
theorem C6_probe_characterization :
    (∀ d : List Nat,
       is_valid_for_data d = true ↔
         (0x160 ≤ d.length ∧
          leNat (pySliceN d 0x15E 0x160) = crc16 (pySliceN d 0 0x15E) ∧
          leNat (pySliceN d 0x15C 0x15E) = crc16 (pySliceN d 0xC0 0x15C)))
    ∧ crc16 [] = 0xFFFF
    ∧ (∀ (l : List Nat) (c : Nat), crc16 (l ++ [c]) = crcRound^[8] (crc16 l ^^^ c)) := by
  refine ⟨?_, by decide, ?_⟩
  · intro d
    simp only [is_valid_for_data]
    by_cases hlen : (d.take 0x160).length < 0x160
    · rw [if_pos hlen]
      have hd : ¬ (0x160 ≤ d.length) := by
        rw [List.length_take] at hlen
        omega
      simp [hd]
    · rw [if_neg hlen]
      have hd : 0x160 ≤ d.length := by
        rw [List.length_take] at hlen
        omega
      rw [pySliceN_take d 0x15E 0x160 0x160 (by norm_num),
        pySliceN_take d 0 0x15E 0x160 (by norm_num),
        pySliceN_take d 0x15C 0x15E 0x160 (by norm_num),
        pySliceN_take d 0xC0 0x15C 0x160 (by norm_num)]
      by_cases h1 : leNat (pySliceN d 0x15E 0x160) = crc16 (pySliceN d 0 0x15E)
      · rw [if_neg (by simp [h1])]
        by_cases h2 : leNat (pySliceN d 0x15C 0x15E) = crc16 (pySliceN d 0xC0 0x15C)
        · rw [if_neg (by simp [h2])]
          simp [hd, h1, h2]
        · rw [if_pos (by simp [h2])]
          simp [h2]
      · rw [if_pos (by simp [h1])]
        simp [h1]
  · intro l c
    rw [crc16, crc16, List.foldl_append]
    rfl

/-- C7: main-table decoding assigns directory ids `0xF000 + index` (the
count coming from the 16-bit word at `fnt_offset + 6`, i.e. the upper half
of entry 0's second 32-bit word) and gives the root (first) entry no
parent id; sub-table parsing at `fnt_offset + sub_table_offset` reads
tag-introduced entries (0 terminates; high bit set: name of `tag &&& 0x7F`
bytes plus 2-byte child id; high bit clear: name only), and on the
synthetic FNT the depth-first traversal visits exactly
`A.BIN`, `SUB`, `B.BIN`. -/
theorem C7_fnt_decoder :
    (∀ (rom : List Nat) (fnt_offset fnt_size : Nat),
       (parse_fnt rom fnt_offset fnt_size).map Prod.fst =
         (List.range (leNat (pySliceN rom (fnt_offset + 6) (fnt_offset + 8)))).map
           (fun i => 0xF000 + i))
    ∧ (∀ (rom : List Nat) (fnt_offset fnt_size : Nat) (p : Nat × FNTDirectoryEntry),
       (parse_fnt rom fnt_offset fnt_size).head? = some p →
       p.2.parent_directory_id = none)
    ∧ parse_fnt_sub_table fntRom 0 16 =
        some [⟨"A.BIN", false, none⟩, ⟨"SUB", true, some 0xF001⟩]
    ∧ parse_fnt_sub_table fntRom 0 29 = some [⟨"B.BIN", false, none⟩]
    ∧ fnt_walk (parse_fnt fntRom 0 36) fntRom 0 8 0xF000 =
        some ["A.BIN", "SUB", "B.BIN"] := by
  refine ⟨?_, ?_, by decide, by decide, by decide⟩
  · intro rom fnt_offset fnt_size
    simp only [parse_fnt, List.map_map]
    rfl
  · intro rom fnt_offset fnt_size p hp
    simp only [parse_fnt] at hp
    cases ht : leNat (pySliceN rom (fnt_offset + 6) (fnt_offset + 8)) with
    | zero => rw [ht] at hp; simp at hp
    | succ t =>
      rw [ht, List.range_succ_eq_map] at hp
      simp only [List.map_cons, List.head?_cons, Option.some.injEq] at hp
      rw [← hp]
      simp

/-- Witness for C7: the root entry of the synthetic FNT has no parent. -/
theorem C7_fnt_decoder_witness :
    ((0xF000, (⟨16, 0, none⟩ : FNTDirectoryEntry)) : Nat × FNTDirectoryEntry).2.parent_directory_id
      = none :=
  C7_fnt_decoder.2.1 fntRom 0 36 (0xF000, ⟨16, 0, none⟩) (by decide)

theorem overlaySlotOpt_of_le {ov : List Nat} {i : Nat} (h : i + 32 ≤ ov.length) :
    overlaySlotOpt ov i = some (overlaySlot ov i) := by
  have c0 : i + 4 ≤ ov.length := by omega
  have c1 : i + 4 + 4 ≤ ov.length := by omega
  have c2 : i + 8 + 4 ≤ ov.length := by omega
  have c3 : i + 12 + 4 ≤ ov.length := by omega
  have c4 : i + 16 + 4 ≤ ov.length := by omega
  have c5 : i + 20 + 4 ≤ ov.length := by omega
  have c6 : i + 24 + 4 ≤ ov.length := by omega
  have c7 : i + 28 + 4 ≤ ov.length := by omega
  simp only [overlaySlotOpt, unpackFrom_natCast]
  rw [if_pos c0]
  simp only [Option.some_bind]
  rw [if_pos c1]
  simp only [Option.some_bind]
  rw [if_pos c2]
  simp only [Option.some_bind]
  rw [if_pos c3]
  simp only [Option.some_bind]
  rw [if_pos c4]
  simp only [Option.some_bind]
  rw [if_pos c5]
  simp only [Option.some_bind]
  rw [if_pos c6]
  simp only [Option.some_bind]
  rw [if_pos c7]
  simp only [Option.some_bind]
  rfl

theorem overlaySlotOpt_of_gt {ov : List Nat} {i : Nat} (h : ov.length < i + 32) :
    overlaySlotOpt ov i = none := by
  simp only [overlaySlotOpt, unpackFrom_natCast]
  rcases Nat.lt_or_ge ov.length (i + 4) with h0 | h0
  · rw [if_neg (by omega : ¬ (i + 4 ≤ ov.length))]; rfl
  · rw [if_pos h0]
    simp only [Option.some_bind]
    rcases Nat.lt_or_ge ov.length (i + 4 + 4) with h1 | h1
    · rw [if_neg (by omega : ¬ (i + 4 + 4 ≤ ov.length))]; rfl
    · rw [if_pos h1]
      simp only [Option.some_bind]
      rcases Nat.lt_or_ge ov.length (i + 8 + 4) with h2 | h2
      · rw [if_neg (by omega : ¬ (i + 8 + 4 ≤ ov.length))]; rfl
      · rw [if_pos h2]
        simp only [Option.some_bind]
        rcases Nat.lt_or_ge ov.length (i + 12 + 4) with h3 | h3
        · rw [if_neg (by omega : ¬ (i + 12 + 4 ≤ ov.length))]; rfl
        · rw [if_pos h3]
          simp only [Option.some_bind]
          rcases Nat.lt_or_ge ov.length (i + 16 + 4) with h4 | h4
          · rw [if_neg (by omega : ¬ (i + 16 + 4 ≤ ov.length))]; rfl
          · rw [if_pos h4]
            simp only [Option.some_bind]
            rcases Nat.lt_or_ge ov.length (i + 20 + 4) with h5 | h5
            · rw [if_neg (by omega : ¬ (i + 20 + 4 ≤ ov.length))]; rfl
            · rw [if_pos h5]
              simp only [Option.some_bind]
              rcases Nat.lt_or_ge ov.length (i + 24 + 4) with h6 | h6
              · rw [if_neg (by omega : ¬ (i + 24 + 4 ≤ ov.length))]; rfl
              · rw [if_pos h6]
                simp only [Option.some_bind]
                rw [if_neg (by omega : ¬ (i + 28 + 4 ≤ ov.length))]
                rfl

theorem read_overlay_table_go_some {ov : List Nat} : ∀ (k i : Nat),
    i + 32 * k ≤ ov.length →
    read_overlay_table_go ov k i =
      some ((List.range k).map (fun j => overlaySlot ov (i + 32 * j))) := by
  intro k
  induction k with
  | zero => intro i h; simp [read_overlay_table_go]
  | succ n ih =>
    intro i h
    simp only [read_overlay_table_go]
    rw [overlaySlotOpt_of_le (by omega), Option.some_bind, ih (i + 32) (by omega)]
    simp only [Option.map, Option.some.injEq]
    have hlist : (List.range (n + 1)).map (fun j => overlaySlot ov (i + 32 * j)) =
        overlaySlot ov i :: (List.range n).map (fun j => overlaySlot ov (i + 32 + 32 * j)) := by
      rw [List.range_succ_eq_map, List.map_cons, List.map_map]
      congr 1
      refine List.map_congr_left ?_
      intro j hj
      show overlaySlot ov (i + 32 * (j + 1)) = overlaySlot ov (i + 32 + 32 * j)
      congr 1
      omega
    rw [hlist]

theorem read_overlay_table_go_none {ov : List Nat} : ∀ (k i : Nat), k ≠ 0 →
    ov.length < i + 32 * k →
    read_overlay_table_go ov k i = none := by
  intro k
  induction k with
  | zero => intro i h0 h; exact absurd rfl h0
  | succ n ih =>
    intro i _ h
    simp only [read_overlay_table_go]
    rcases Nat.lt_or_ge ov.length (i + 32) with hc | hc
    · rw [overlaySlotOpt_of_gt hc]; rfl
    · rw [overlaySlotOpt_of_le hc, Option.some_bind]
      rw [ih (i + 32) (by omega) (by omega)]
      rfl

/-- C9: overlay-table decoding yields one entry per 32-byte record in
table order, each decoded as eight little-endian 32-bit fields; a 0-byte
table yields the empty sequence; a table length that is not a multiple of
32 fails (the partial final record's `struct.unpack_from` raises, modelled
`none`). -/
theorem C9_overlay_table :
    (∀ (rom : List Nat) (offset size : Nat),
       (pySliceN rom offset (offset + size)).length % 32 = 0 →
       read_overlay_table rom offset size =
         some ((List.range ((pySliceN rom offset (offset + size)).length / 32)).map
           (fun j => overlaySlot (pySliceN rom offset (offset + size)) (32 * j))))
    ∧ (∀ (rom : List Nat) (offset : Nat), read_overlay_table rom offset 0 = some [])
    ∧ (∀ (rom : List Nat) (offset size : Nat),
       (pySliceN rom offset (offset + size)).length % 32 ≠ 0 →
       read_overlay_table rom offset size = none) := by
  refine ⟨?_, ?_, ?_⟩
  · intro rom offset size h
    simp only [read_overlay_table]
    have hk : ((pySliceN rom offset (offset + size)).length + 31) / 32 =
        (pySliceN rom offset (offset + size)).length / 32 := by omega
    rw [hk, read_overlay_table_go_some _ 0 (by omega)]
    simp only [Nat.zero_add]
  · intro rom offset
    have hov : pySliceN rom offset (offset + 0) = [] := by
      unfold pySliceN
      apply List.drop_eq_nil_of_le
      rw [List.length_take]
      omega
    simp only [read_overlay_table, hov]
    rfl
  · intro rom offset size h
    simp only [read_overlay_table]
    apply read_overlay_table_go_none
    · omega
    · omega

/-- Witness for C9: a full 32-byte table decodes to its one record, and a
40-byte table fails. -/
theorem C9_overlay_table_witness :
    read_overlay_table (List.range 32) 0 32 =
      some ((List.range ((pySliceN (List.range 32) 0 (0 + 32)).length / 32)).map
        (fun j => overlaySlot (pySliceN (List.range 32) 0 (0 + 32)) (32 * j))) ∧
    read_overlay_table (List.replicate 40 0) 0 40 = none :=
  ⟨C9_overlay_table.1 (List.range 32) 0 32 (by decide),
   C9_overlay_table.2.2 (List.replicate 40 0) 0 40 (by decide)⟩

theorem parse_fnt_sub_go_invariant {rom : List Nat} : ∀ (fuel offset : Nat)
    (out : List FNTFileEntry), parse_fnt_sub_go rom fuel offset = some out →
    ∀ e ∈ out, e.is_directory = e.directory_id.isSome := by
  intro fuel
  induction fuel with
  | zero => intro offset out h; simp [parse_fnt_sub_go] at h
  | succ n ih =>
    intro offset out h
    simp only [parse_fnt_sub_go] at h
    cases hg : rom.get? offset with
    | none => rw [hg] at h; simp at h
    | some tl =>
      rw [hg] at h
      simp only [Option.some_bind] at h
      by_cases h0 : tl = 0
      · rw [if_pos h0] at h
        simp only [Option.some.injEq] at h
        rw [← h]
        intro e he
        simp at he
      · rw [if_neg h0] at h
        cases hd : decodeAscii (pySliceN rom (offset + 1) (offset + 1 + (tl &&& 0x7F))) with
        | none => rw [hd] at h; simp at h
        | some nm =>
          rw [hd] at h
          simp only [Option.some_bind] at h
          by_cases hbit : tl &&& 0x80 ≠ 0
          · rw [if_pos hbit] at h
            cases hrec : parse_fnt_sub_go rom n (offset + 1 + (tl &&& 0x7F) + 2) with
            | none => rw [hrec] at h; simp at h
            | some rest =>
              rw [hrec] at h
              simp only [Option.map, Option.some.injEq] at h
              rw [← h]
              intro e he
              rcases List.mem_cons.mp he with he1 | he2
              · rw [he1]
                rfl
              · exact ih _ rest hrec e he2
          · rw [if_neg hbit] at h
            cases hrec : parse_fnt_sub_go rom n (offset + 1 + (tl &&& 0x7F)) with
            | none => rw [hrec] at h; simp at h
            | some rest =>
              rw [hrec] at h
              simp only [Option.map, Option.some.injEq] at h
              rw [← h]
              intro e he
              rcases List.mem_cons.mp he with he1 | he2
              · rw [he1]
                rfl
              · exact ih _ rest hrec e he2

/-- C10: every entry produced by sub-table parsing satisfies
`is_directory = true` exactly when a child directory id is present — a
directory entry always carries the 2-byte id read after its name, a file
entry never does. -/
theorem C10_directory_id_invariant :
    ∀ (rom : List Nat) (fnt_offset sub_table_offset : Nat) (out : List FNTFileEntry),
      parse_fnt_sub_table rom fnt_offset sub_table_offset = some out →
      ∀ e ∈ out, e.is_directory = e.directory_id.isSome := by
  intro rom fnt_offset sub_table_offset out h
  exact parse_fnt_sub_go_invariant _ _ out h

/-- Witness for C10: the single entry parsed from `fntSmall` is a
directory and carries an id. -/
theorem C10_directory_id_invariant_witness :
    (⟨"A", true, some 0xF007⟩ : FNTFileEntry).is_directory =
      (⟨"A", true, some 0xF007⟩ : FNTFileEntry).directory_id.isSome :=
  C10_directory_id_invariant fntSmall 0 0 [⟨"A", true, some 0xF007⟩] (by decide)
    ⟨"A", true, some 0xF007⟩ (by decide)
